import Mathlib

/-!
Verification of the Silver-layer reconciliation core of the repository
(`src/silver/transformations.py`).

The pandas code is shallowly embedded: a DataFrame is a `Table` — a list of
column names plus a list of rows, each row a list of `Value`s aligned with the
columns.  Column access `df[c]` is embedded as a lookup of the first column
named `c` (pandas raises or misbehaves on duplicate labels; the pipelines are
only exercised on label-unique tables).  File I/O (`load_bronze_table`,
`save_to_silver`) is embedded by passing the tables as arguments and returning
the results; the quarantine side effect of `save_rejected_records` is embedded
as a returned list of `Batch`es (table name, reason, rejected rows) — the
run timestamp and parquet file naming are outside the model.

Conventions mirroring pandas semantics used by the source:
* a missing value (`NaN`/`NaT`/`None`) is `Value.null`;
* `merge` key matching never matches nulls (`NaN != NaN` in joins), while
  `duplicated`/`drop_duplicates` treat equal nulls as duplicates;
* `astype(str)` renders a null as the string "nan";
* `pd.to_datetime(errors = coerce)` and `pd.to_numeric(errors = coerce)` are
  embedded with a minimal concrete parser (ISO dates, plain decimals); the
  claims under verification never depend on which strings parse, only on the
  parse result being a value of the right kind or null;
* string columns are handled per-cell: operations the source applies to
  object-dtype columns are applied to the string cells of every column, which
  agrees with pandas on homogeneous columns (the only ones the claims exercise).
-/

namespace Silver

/-- A scalar cell of a table: missing, string, numeric or timestamp. -/
inductive Value where
  | null : Value
  | str : String → Value
  | num : ℚ → Value
  | date : Int → Value
deriving DecidableEq

/-- Embeds `pd.isna` on a scalar. -/
def Value.isNull : Value → Bool
  | .null => true
  | _ => false

/-! ### Python-style string primitives (on `List Char`) -/

/-- Embeds `str.lower` (ASCII, as the validation pattern is ASCII). -/
def pyLower (cs : List Char) : List Char := cs.map Char.toLower

/-- Whitespace test used by `str.strip`. -/
def isWs (c : Char) : Bool := c.isWhitespace

/-- Leading-whitespace removal. -/
def trimLeft (cs : List Char) : List Char := cs.dropWhile isWs

/-- Trailing-whitespace removal. -/
def trimRight (cs : List Char) : List Char := (trimLeft cs.reverse).reverse

/-- Embeds `str.strip`. -/
def pyTrim (cs : List Char) : List Char := trimRight (trimLeft cs)

/-- Embeds `str.replace(space, underscore)` on a column name (single-character
literal replacement is a character map). -/
def replSpace (cs : List Char) : List Char :=
  cs.map (fun c => if c = ' ' then '_' else c)

/-- Embeds the column-name normalization
`df.columns.str.lower().str.strip().str.replace(space, underscore)`. -/
def normalizeName (s : String) : String :=
  String.mk (replSpace (pyTrim (pyLower s.data)))

/-! ### The email validation pattern -/

/-- Character class of the local part of the pattern. -/
def isLocalChar (c : Char) : Bool :=
  c.isAlphanum || c = '.' || c = '_' || c = '%' || c = '+' || c = '-'

/-- Character class of the domain part of the pattern. -/
def isDomainChar (c : Char) : Bool :=
  c.isAlphanum || c = '.' || c = '-'

/-- Embeds `Series.str.match` with the source's email pattern: one or more
local characters, an at-sign, one or more domain characters, a dot, then at
least two letters, anchored at both ends.  Because the local and domain
classes exclude the at-sign and the final letters exclude the dot, the match
is forced to split at the first at-sign and the last dot, which this
executable matcher does. -/
def matchEmail (cs : List Char) : Bool :=
  let l := cs.takeWhile (fun c => !(c = '@'))
  match cs.drop l.length with
  | '@' :: r =>
      (!l.isEmpty) && l.all isLocalChar &&
      (let tr := r.reverse.takeWhile (fun c => !(c = '.'))
       match r.reverse.drop tr.length with
       | '.' :: dr => (!dr.isEmpty) && dr.all isDomainChar
            && decide (2 ≤ tr.length) && tr.all Char.isAlpha
       | _ => false)
  | _ => false

/-! ### Scalar coercions -/

/-- Embeds Python `str(x)`: identity on strings; any other scalar renders to a
string that contains no at-sign (nulls render as "nan", as in pandas
`astype(str)`), so only its at-sign-freeness is observable downstream. -/
def Value.astypeStr : Value → String
  | .null => "nan"
  | .str s => s
  | .num q => toString q.num ++ "r" ++ toString q.den
  | .date n => "ts" ++ toString n

/-- Numeric value of a digit string. -/
def digitsVal (cs : List Char) : Nat :=
  cs.foldl (fun a c => a * 10 + (c.toNat - 48)) 0

/-- Minimal decimal parser standing in for `pd.to_numeric(errors = coerce)` on
a string: optional sign, digits with at most one dot. -/
def parseDecimal (cs0 : List Char) : Option ℚ :=
  let cs := pyTrim cs0
  let sb : ℚ × List Char :=
    match cs with
    | '-' :: t => (-1, t)
    | '+' :: t => (1, t)
    | t => (1, t)
  let ip := sb.2.takeWhile (fun c => !(c = '.'))
  match sb.2.drop ip.length with
  | [] =>
      if !ip.isEmpty && ip.all Char.isDigit then
        some (sb.1 * (digitsVal ip : ℚ))
      else none
  | '.' :: fp =>
      if (!ip.isEmpty || !fp.isEmpty) && ip.all Char.isDigit
          && fp.all Char.isDigit then
        some (sb.1 * ((digitsVal ip : ℚ) + (digitsVal fp : ℚ) / ((10 : ℚ) ^ fp.length)))
      else none
  | _ => none

/-- Embeds `str.replace` removing currency symbols and thousands separators
before the numeric coercion of `amount`. -/
def stripMoney (cs : List Char) : List Char :=
  cs.filter (fun c => !(c = '$') && !(c = ','))

/-- Minimal ISO date parser standing in for `pd.to_datetime(errors = coerce)`
on a string (year-month-day, all digits). -/
def parseDateStr (cs0 : List Char) : Option Int :=
  let cs := pyTrim cs0
  let y := cs.takeWhile (fun c => !(c = '-'))
  match cs.drop y.length with
  | '-' :: r1 =>
      let m := r1.takeWhile (fun c => !(c = '-'))
      match r1.drop m.length with
      | '-' :: d =>
          if !y.isEmpty && y.all Char.isDigit && !m.isEmpty && m.all Char.isDigit
              && !d.isEmpty && d.all Char.isDigit
              && decide (1 ≤ digitsVal m) && decide (digitsVal m ≤ 12)
              && decide (1 ≤ digitsVal d) && decide (digitsVal d ≤ 31) then
            some ((digitsVal y : Int) * 10000 + (digitsVal m : Int) * 100 + (digitsVal d : Int))
          else none
      | _ => none
  | _ => none

/-- Embeds `pd.to_datetime(col, errors = coerce)` per cell: timestamps pass
through, strings parse or become null, numbers are epoch-like stamps, nulls
stay null. -/
def toDatetime (v : Value) : Value :=
  match v with
  | .date n => .date n
  | .str s =>
      match parseDateStr s.data with
      | some n => .date n
      | none => .null
  | .num q => .date ⌊q⌋
  | .null => .null

/-- Embeds the `amount` coercion: strings are stripped of currency symbols and
separators then parsed (unparseable becomes null), numbers pass through,
anything else coerces to null. -/
def coerceAmount (v : Value) : Value :=
  match v with
  | .str s =>
      match parseDecimal (stripMoney s.data) with
      | some q => .num q
      | none => .null
  | .num q => .num q
  | .date _ => .null
  | .null => .null

/-- Embeds `pd.to_numeric(col, errors = coerce)` for the `rating` column. -/
def coerceNumeric (v : Value) : Value :=
  match v with
  | .str s =>
      match parseDecimal s.data with
      | some q => .num q
      | none => .null
  | .num q => .num q
  | .date _ => .null
  | .null => .null

/-! ### Tables -/

/-- A table row: cells aligned with the table's column list. -/
abbrev Rec := List Value

/-- The embedding of a DataFrame. -/
structure Table where
  cols : List String
  rows : List Rec
deriving DecidableEq

/-- Index of the first column with the given name. -/
def firstIdx (c : String) : List String → Option Nat
  | [] => none
  | x :: xs => if x = c then some 0 else (firstIdx c xs).map (· + 1)

/-- Cell of a row at a position (missing positions read as null, matching the
NaN fill pandas applies to ragged data). -/
def cellAt (r : Rec) (i : Nat) : Value := r.getD i .null

/-- Value of the column named `c` in row `r` of a table with columns `cols`. -/
def colVal (cols : List String) (c : String) (r : Rec) : Value :=
  match firstIdx c cols with
  | some i => cellAt r i
  | none => .null

/-- Embeds the column-name normalization applied to a whole DataFrame:
`df.columns = df.columns.str.lower().str.strip().str.replace(...)`.  Values
are untouched. -/
def normalizeTable (t : Table) : Table :=
  { cols := t.cols.map normalizeName, rows := t.rows }

/-- Embeds `df[df[c].map(keep)]`: keep the rows whose cell in column `c`
satisfies `keep`. -/
def filterRows (t : Table) (c : String) (keep : Value → Bool) : Table :=
  { cols := t.cols, rows := t.rows.filter (fun r => keep (colVal t.cols c r)) }

/-- Embeds `df[c] = df[c].map(f)` (no-op when the column is absent; the source
always guards these assignments with a presence check or has checked the
column exists). -/
def mapCol (t : Table) (c : String) (f : Value → Value) : Table :=
  match firstIdx c t.cols with
  | some i =>
      { cols := t.cols, rows := t.rows.map (fun r => r.set i (f (cellAt r i))) }
  | none => t

/-- One Quality-Gate application: the rows failing the predicate `bad` are
split off (`df[mask]` / `df[~mask]` in the source). -/
structure GateOut where
  kept : Table
  rejected : List Rec

/-- Embeds a rejection step: `rejected = df[bad]`, `df = df[~bad]`. -/
def rejectRows (t : Table) (c : String) (bad : Value → Bool) : GateOut :=
  { kept := { cols := t.cols, rows := t.rows.filter (fun r => !bad (colVal t.cols c r)) },
    rejected := t.rows.filter (fun r => bad (colVal t.cols c r)) }

/-- Marks every row of the list with whether an earlier row has the same key
(`df.duplicated(subset, keep = first)` semantics; equal nulls count as
duplicates, as in pandas `duplicated`). -/
def markDups (key : Rec → Value) : List Value → List Rec → List (Rec × Bool)
  | _, [] => []
  | seen, r :: rs => (r, decide (key r ∈ seen)) :: markDups key (key r :: seen) rs

/-- Embeds the de-duplication gate: `drop_duplicates(subset = c, keep = first)`
keeps the unmarked rows; the marked rows are the rejected batch the source
saves (`duplicates[duplicates.duplicated(subset, keep = first)]`). -/
def dedupGate (t : Table) (c : String) : GateOut :=
  let m := markDups (colVal t.cols c) [] t.rows
  { kept := { cols := t.cols, rows := (m.filter (fun p => !p.2)).map Prod.fst },
    rejected := (m.filter (fun p => p.2)).map Prod.fst }

/-- A rejected batch as written by `save_rejected_records`: source table name,
rejection reason, rejected rows.  The timestamp column is outside the model. -/
structure Batch where
  table : String
  reason : String
  rows : List Rec
deriving DecidableEq

/-- `save_rejected_records` returns without writing when the batch is empty. -/
def mkBatch (tbl reason : String) (rows : List Rec) : List Batch :=
  if rows.isEmpty then [] else [⟨tbl, reason, rows⟩]

/-- Embeds `pd.concat([a, b], ignore_index = True)`: union of the column lists
in order of first appearance, rows reindexed with null fill. -/
def concatTables (a b : Table) : Table :=
  let cols := a.cols ++ b.cols.filter (fun c => !a.cols.contains c)
  { cols := cols,
    rows := a.rows.map (fun r => cols.map (fun c => colVal a.cols c r))
        ++ b.rows.map (fun r => cols.map (fun c => colVal b.cols c r)) }

/-- Join-key equality: pandas `merge` never matches null keys. -/
def joinEq (a b : Value) : Bool := decide (a = b) && !a.isNull

/-- Output column list of `merge(on = key, suffixes = (sl, sr))`: columns
present on both sides (other than the key) get suffixed; the key appears once,
at its left position. -/
def mergeCols (lc rc : List String) (key sl sr : String) : List String :=
  lc.map (fun c => if !(c = key) && rc.contains c then c ++ sl else c)
    ++ (rc.filter (fun c => !(c = key))).map
        (fun c => if lc.contains c then c ++ sr else c)

/-- Embeds `l.merge(r, on = key, how = inner, suffixes = (sl, sr))`:
left-row-major pairing of rows with equal non-null keys; the combined row is
the left row followed by the right row minus its key cell. -/
def mergeOn (l r : Table) (key sl sr : String) : Table :=
  { cols := mergeCols l.cols r.cols key sl sr,
    rows :=
      match firstIdx key l.cols, firstIdx key r.cols with
      | some i, some j =>
          l.rows.flatMap (fun lr =>
            (r.rows.filter (fun rr => joinEq (cellAt lr i) (cellAt rr j))).map
              (fun rr => lr ++ rr.eraseIdx j))
      | _, _ => [] }

/-! ### The customers pipeline -/

/-- Embeds the email normalization
`df[email] = df[email].astype(str).str.lower().str.strip()`. -/
def emailNormalize (v : Value) : Value :=
  .str (String.mk (pyTrim (pyLower v.astypeStr.data)))

/-- The email-format rejection predicate: `~df[email].str.match(pattern,
na = False)` — a non-string never matches. -/
def emailFormatBad (v : Value) : Bool :=
  match v with
  | .str s => !matchEmail s.data
  | _ => true

/-- Embeds the date conversions of step 9 of `transform_customers` (presence
of each column is checked by the source; `mapCol` is a no-op when absent). -/
def coerceDateCols (t : Table) : Table :=
  mapCol (mapCol t "registration_date" toDatetime) "birth_date" toDatetime

/-- Embeds the step-11 text cleanup cell transform: strip, then normalize the
empty-string / nan / null / None sentinels to null. -/
def cleanCell (v : Value) : Value :=
  match v with
  | .str s =>
      let t := String.mk (pyTrim s.data)
      if t = "" || t = "nan" || t = "null" || t = "None" then .null else .str t
  | w => w

/-- Embeds step 11 of `transform_customers`: the cleanup is applied to every
text column other than `customer_id` and `email`. -/
def cleanTextCols (t : Table) : Table :=
  (t.cols.filter (fun c => !(c = "customer_id") && !(c = "email"))).foldl
    (fun acc c => mapCol acc c cleanCell) t

/-- Step 4 of `transform_customers`: reject null `customer_id`. -/
def custG4 (df : Table) : GateOut := rejectRows df "customer_id" Value.isNull

/-- Step 5: reject null `email`. -/
def custG5 (df : Table) : GateOut := rejectRows (custG4 df).kept "email" Value.isNull

/-- Step 6: normalize the email column. -/
def custNorm (df : Table) : Table := mapCol (custG5 df).kept "email" emailNormalize

/-- Step 7: reject malformed emails. -/
def custG7 (df : Table) : GateOut := rejectRows (custNorm df) "email" emailFormatBad

/-- Step 8: de-duplicate on `customer_id`, first occurrence wins. -/
def custG8 (df : Table) : GateOut := dedupGate (custG7 df).kept "customer_id"

/-- Steps 4 through 11 of `transform_customers`, run after the required
columns are known to exist. -/
def customersPipeline (df : Table) : Table × List Batch :=
  (cleanTextCols (coerceDateCols (custG8 df).kept),
    mkBatch "customers" "customer_id_null" (custG4 df).rejected
      ++ mkBatch "customers" "email_null" (custG5 df).rejected
      ++ mkBatch "customers" "email_invalid_format" (custG7 df).rejected
      ++ mkBatch "customers" "customer_id_duplicate" (custG8 df).rejected)

/-- Embeds `transform_customers`.  The bronze load is the argument `df0`; the
returned pair is the accepted table and the quarantined batches. -/
def transform_customers (df0 : Table) : Table × List Batch :=
  if df0.rows.isEmpty then (df0, [])
  else
    let df := normalizeTable df0
    if "customer_id" ∈ df.cols ∧ "email" ∈ df.cols then customersPipeline df
    else (⟨[], []⟩, [])

/-! ### The orders pipeline -/

/-- The reviews-to-transactions join of `transform_orders`: union the two
review periods, normalize column names on both sides, drop rows with null
`transaction_id` on each side (no quarantine — the source filters without
calling `save_rejected_records`), then inner-join. -/
def ordersJoin (jan feb tx : Table) : Table :=
  mergeOn
    (filterRows (normalizeTable (concatTables jan feb)) "transaction_id"
      (fun v => !v.isNull))
    (filterRows (normalizeTable tx) "transaction_id" (fun v => !v.isNull))
    "transaction_id" "_review" "_transaction"

/-- Embeds `customers_df[[customer_id, email]].rename(email to
customer_email)`. -/
def customerLookup (t : Table) : Table :=
  { cols := ["customer_id", "customer_email"],
    rows := t.rows.map (fun r =>
      [colVal t.cols "customer_id" r, colVal t.cols "email" r]) }

/-- The fixed projection/rename mapping of step 7 of `transform_orders`,
in source order. -/
def columnMapping : List (String × String) :=
  [("transaction_id", "order_id"), ("customer_id", "customer_id"),
   ("customer_email", "customer_email"), ("amount", "amount"),
   ("currency", "currency"), ("payment_date", "order_date"),
   ("status", "status"), ("payment_method", "payment_method"),
   ("rating", "rating"), ("review_date", "review_date")]

/-- Embeds step 7: keep the mapped columns that are present, in mapping order,
renamed to their targets. -/
def projectRename (t : Table) : Table :=
  let avail := columnMapping.filter (fun p => t.cols.contains p.1)
  { cols := avail.map Prod.snd,
    rows := t.rows.map (fun r => avail.map (fun p => colVal t.cols p.1 r)) }

/-- The `amount` rejection predicate: null or non-positive. -/
def amountBad (v : Value) : Bool :=
  v.isNull ||
    (match v with
     | .num q => decide (q ≤ 0)
     | _ => false)

/-- Step 5 of `transform_orders`: reject null `customer_id` after the first
join. -/
def ordersG5 (o : Table) : GateOut := rejectRows o "customer_id" Value.isNull

/-- Step 6: inner-join to the customer lookup on `customer_id`. -/
def ordersJoined (customers o : Table) : Table :=
  mergeOn (ordersG5 o).kept (customerLookup customers) "customer_id" "_x" "_y"

/-- Step 7: project and rename the fixed column set. -/
def ordersProjected (customers o : Table) : Table :=
  projectRename (ordersJoined customers o)

/-- Step 8: type coercions of the date, amount and rating columns. -/
def ordersCoerced (customers o : Table) : Table :=
  mapCol (mapCol (mapCol (mapCol (ordersProjected customers o)
    "order_date" toDatetime) "review_date" toDatetime)
      "amount" coerceAmount) "rating" coerceNumeric

/-- Step 9: reject null or non-positive amounts. -/
def ordersG9 (customers o : Table) : GateOut :=
  rejectRows (ordersCoerced customers o) "amount" amountBad

/-- Step 10: reject null order dates. -/
def ordersG10 (customers o : Table) : GateOut :=
  rejectRows (ordersG9 customers o).kept "order_date" Value.isNull

/-- Step 11: de-duplicate on `order_id`, first occurrence wins. -/
def ordersG11 (customers o : Table) : GateOut :=
  dedupGate (ordersG10 customers o).kept "order_id"

/-- Steps 5 through 11 of `transform_orders`, run on a non-empty join result
`orders0` with the accepted customers table. -/
def ordersPipeline (customers orders0 : Table) : Table × List Batch :=
  ((ordersG11 customers orders0).kept,
    mkBatch "orders" "customer_id_null" (ordersG5 orders0).rejected
      ++ mkBatch "orders" "amount_invalid" (ordersG9 customers orders0).rejected
      ++ mkBatch "orders" "order_date_null" (ordersG10 customers orders0).rejected
      ++ mkBatch "orders" "order_id_duplicate" (ordersG11 customers orders0).rejected)

/-- Embeds `transform_orders`.  The bronze loads are the arguments; a load
failure is an empty table.  Empty review periods, an empty transactions table
and an empty join each abort with an empty result and no quarantine. -/
def transform_orders (customers jan feb tx : Table) : Table × List Batch :=
  if jan.rows.isEmpty || feb.rows.isEmpty then (⟨[], []⟩, [])
  else if tx.rows.isEmpty then (⟨[], []⟩, [])
  else
    let orders0 := ordersJoin jan feb tx
    if orders0.rows.isEmpty then (⟨[], []⟩, [])
    else ordersPipeline customers orders0

/-! ### The quality report -/

/-- Embeds `Series.nunique()`: distinct non-null values of a column. -/
def nunique (t : Table) (c : String) : Nat :=
  (((t.rows.map (colVal t.cols c)).filter (fun v => !v.isNull)).dedup).length

/-- The report computed by `validate_data_quality`. -/
structure QualityReport where
  customers_total : Nat
  customers_unique_ids : Nat
  customers_unique_emails : Nat
  customers_null_check : List (String × Nat)
  orders_total : Nat
  orders_unique_ids : Nat
  orders_null_check : List (String × Nat)
  customers_with_orders : Nat
  customers_without_orders : Int
  orphan_orders : Nat
deriving DecidableEq

/-- Per-column null counts, embedding `df.isnull().sum().to_dict()`. -/
def nullCheck (t : Table) : List (String × Nat) :=
  t.cols.map (fun c =>
    (c, (t.rows.filter (fun r => (colVal t.cols c r).isNull)).length))

/-- Embeds `validate_data_quality`: counts and uniqueness metrics over the two
outputs; `customers_with_orders` is the number of distinct non-null
`customer_email` values among orders, `customers_without_orders` the customer
count minus that number, and `orphan_orders` the constant zero. -/
def validate_data_quality (customers orders : Table) : QualityReport :=
  { customers_total := customers.rows.length
    customers_unique_ids := nunique customers "customer_id"
    customers_unique_emails := nunique customers "email"
    customers_null_check := nullCheck customers
    orders_total := orders.rows.length
    orders_unique_ids := nunique orders "order_id"
    orders_null_check := nullCheck orders
    customers_with_orders := nunique orders "customer_email"
    customers_without_orders :=
      (customers.rows.length : Int) - (nunique orders "customer_email" : Int)
    orphan_orders := 0 }

/-! ### Derived boolean observations used by the claim statements -/

/-- A strictly positive numeric cell. -/
def amountPos (v : Value) : Bool :=
  match v with
  | .num q => decide (0 < q)
  | _ => false

/-- Whether some row of the table carries the value `v` in column `c`. -/
def occursIn (t : Table) (c : String) (v : Value) : Bool :=
  t.rows.any (fun r => decide (colVal t.cols c r = v))

/-- A string cell that, lower-cased and trimmed, matches the email pattern. -/
def emailWellFormed (v : Value) : Bool :=
  match v with
  | .str s => matchEmail (pyTrim (pyLower s.data))
  | _ => false

end Silver

namespace Silver

/-! ### Generic gate lemmas -/

theorem length_filter_partition (l : List α) (p : α → Bool) :
    (l.filter p).length + (l.filter (fun a => !p a)).length = l.length := by
  induction l with
  | nil => rfl
  | cons a t ih => cases h : p a <;> simp [List.filter_cons, h] <;> omega

theorem markDups_length (key : Rec → Value) (seen : List Value) (l : List Rec) :
    (markDups key seen l).length = l.length := by
  induction l generalizing seen with
  | nil => rfl
  | cons r rs ih => simp [markDups, ih]

theorem rejectRows_partition (t : Table) (c : String) (bad : Value → Bool) :
    (rejectRows t c bad).kept.rows.length + (rejectRows t c bad).rejected.length
      = t.rows.length := by
  have h := length_filter_partition t.rows (fun r => bad (colVal t.cols c r))
  simp only [rejectRows]
  omega

theorem dedupGate_partition (t : Table) (c : String) :
    (dedupGate t c).kept.rows.length + (dedupGate t c).rejected.length
      = t.rows.length := by
  have h := length_filter_partition (markDups (colVal t.cols c) [] t.rows)
    (fun p => p.2)
  have hl := markDups_length (colVal t.cols c) [] t.rows
  simp only [dedupGate, List.length_map]
  omega

/-- Claim C3: at every Quality Gate application of the pipelines — the
rejection steps (`rejectRows`, used for every null/format/amount/date gate of
`transform_customers` and `transform_orders`) and the de-duplication steps
(`dedupGate`) — every input record lands in exactly one of the accepted and
rejected outputs, so the lengths add up to the input length. -/
theorem claim_C3 :
    (∀ (t : Table) (c : String) (bad : Value → Bool),
      (rejectRows t c bad).kept.rows.length + (rejectRows t c bad).rejected.length
        = t.rows.length) ∧
    (∀ (t : Table) (c : String),
      (dedupGate t c).kept.rows.length + (dedupGate t c).rejected.length
        = t.rows.length) :=
  ⟨rejectRows_partition, dedupGate_partition⟩

/-! ### Concrete tables used by the example-based claims -/

def c4tbl : Table :=
  ⟨["customer_id", "email"],
   [[.num 1, .str "A@X.com"], [.num 1, .str "b@x.com"], [.num 2, .str "bad"]]⟩

/-- Claim C4: deduplication keeps the first occurrence in record order; on the
spec's example input the accepted set is exactly the first id-1 record with
normalized email, the second id-1 record is rejected as customer_id_duplicate
and the id-2 record as email_invalid_format. -/
theorem claim_C4 :
    transform_customers c4tbl =
      (⟨["customer_id", "email"], [[.num 1, .str "a@x.com"]]⟩,
       [⟨"customers", "email_invalid_format", [[.num 2, .str "bad"]]⟩,
        ⟨"customers", "customer_id_duplicate", [[.num 1, .str "b@x.com"]]⟩]) := by
  decide

/-- Claim C5: when, after column normalization, `customer_id` or `email` is
missing entirely, `transform_customers` aborts with an empty result and no
per-record rejection is performed. -/
theorem claim_C5 (df0 : Table)
    (h : "customer_id" ∉ (normalizeTable df0).cols ∨ "email" ∉ (normalizeTable df0).cols) :
    (transform_customers df0).1.rows = [] ∧ (transform_customers df0).2 = [] := by
  unfold transform_customers
  by_cases he : df0.rows.isEmpty
  · simp only [he, if_true]
    exact ⟨List.isEmpty_iff.mp he, trivial⟩
  · have hc : ¬("customer_id" ∈ (normalizeTable df0).cols ∧ "email" ∈ (normalizeTable df0).cols) := by
      rcases h with h | h <;> intro hc <;> exact h (by tauto)
    simp [he, hc]

def c5tbl : Table := ⟨["customer_id"], [[.num 1]]⟩

/-- Witness for C5 at a concrete table lacking the email column. -/
theorem claim_C5_witness :
    ("customer_id" ∉ (normalizeTable c5tbl).cols ∨ "email" ∉ (normalizeTable c5tbl).cols) ∧
    (transform_customers c5tbl).1.rows = [] ∧ (transform_customers c5tbl).2 = [] :=
  ⟨Or.inr (by decide), claim_C5 c5tbl (Or.inr (by decide))⟩

/-- Claim C6: with non-empty review periods and transactions, a
reviews-to-transactions join with zero rows makes `transform_orders` abort
with an empty result and no further validation step (empty quarantine). -/
theorem claim_C6 (customers jan feb tx : Table)
    (h1 : jan.rows ≠ []) (h2 : feb.rows ≠ []) (h3 : tx.rows ≠ [])
    (h4 : (ordersJoin jan feb tx).rows = []) :
    transform_orders customers jan feb tx = (⟨[], []⟩, []) := by
  unfold transform_orders
  simp [h1, h2, h3, h4]

def c6jan : Table := ⟨["transaction_id", "rating"], [[.str "T1", .num 5]]⟩
def c6feb : Table := ⟨["transaction_id", "rating"], [[.str "T2", .num 4]]⟩
def c6tx : Table :=
  ⟨["transaction_id", "customer_id", "amount"], [[.str "T9", .num 1, .num 10]]⟩
def c6cust : Table := ⟨["customer_id", "email"], [[.num 1, .str "a@x.com"]]⟩

/-- Witness for C6: disjoint transaction ids make the join empty and the
stage aborts. -/
theorem claim_C6_witness :
    (c6jan.rows ≠ [] ∧ c6feb.rows ≠ [] ∧ c6tx.rows ≠ [] ∧
      (ordersJoin c6jan c6feb c6tx).rows = []) ∧
    transform_orders c6cust c6jan c6feb c6tx = (⟨[], []⟩, []) :=
  ⟨⟨by decide, by decide, by decide, by decide⟩,
   claim_C6 c6cust c6jan c6feb c6tx (by decide) (by decide) (by decide) (by decide)⟩

/-- Claim C10: an empty review period (zero records, whether from a failed
load or a legitimately empty table) aborts `transform_orders` before any
union, join or per-record rejection, suppressing all orders of the other
period. -/
theorem claim_C10 (customers jan feb tx : Table)
    (h : jan.rows = [] ∨ feb.rows = []) :
    transform_orders customers jan feb tx = (⟨[], []⟩, []) := by
  unfold transform_orders
  rcases h with h | h <;> simp [h]

def c10jan : Table := ⟨["transaction_id", "rating"], [[.str "T1", .num 5]]⟩
def c10feb : Table := ⟨["transaction_id", "rating"], []⟩
def c10tx : Table :=
  ⟨["transaction_id", "customer_id", "amount", "payment_date"],
   [[.str "T1", .num 1, .num 10, .date 100]]⟩
def c10cust : Table := ⟨["customer_id", "email"], [[.num 1, .str "a@x.com"]]⟩

/-- Witness for C10: February is empty while January holds a fully joinable
order candidate, and the stage still returns nothing. -/
theorem claim_C10_witness :
    (c10feb.rows = []) ∧ transform_orders c10cust c10jan c10feb c10tx = (⟨[], []⟩, []) :=
  ⟨rfl, claim_C10 c10cust c10jan c10feb c10tx (Or.inr rfl)⟩

end Silver

namespace Silver

/-! ### Character-level lemmas for the name normalization -/

theorem char_eq_of_toNat_eq {a b : Char} (h : a.toNat = b.toNat) : a = b := by
  have ha := Char.ofNat_toNat a
  rw [h, Char.ofNat_toNat] at ha
  exact ha.symm

theorem charToNat_ofNat_valid {m : Nat} (h : m < 55296) : (Char.ofNat m).toNat = m := by
  have hv : m.isValidChar := Or.inl h
  rw [Char.ofNat, dif_pos hv]
  rfl

theorem toNat_toLower_upper {c : Char} (h : 65 ≤ c.toNat ∧ c.toNat ≤ 90) :
    c.toLower.toNat = c.toNat + 32 := by
  have hc : c.toLower = Char.ofNat (c.toNat + 32) := by
    simp only [Char.toLower]
    rw [if_pos]
    exact ⟨h.1, h.2⟩
  rw [hc, charToNat_ofNat_valid (by omega)]

theorem toLower_eq_self {c : Char} (h : ¬(65 ≤ c.toNat ∧ c.toNat ≤ 90)) :
    c.toLower = c := by
  simp only [Char.toLower]
  rw [if_neg]
  intro hc
  exact h ⟨hc.1, hc.2⟩

theorem charToLower_toLower (c : Char) : c.toLower.toLower = c.toLower := by
  by_cases h : 65 ≤ c.toNat ∧ c.toNat ≤ 90
  · have h1 := toNat_toLower_upper h
    exact toLower_eq_self (by omega)
  · rw [toLower_eq_self h]
    exact toLower_eq_self h

theorem isWs_of_toNat {c : Char} (h1 : c.toNat ≠ 32) (h2 : c.toNat ≠ 9)
    (h3 : c.toNat ≠ 13) (h4 : c.toNat ≠ 10) : isWs c = false := by
  simp only [isWs, Char.isWhitespace, Bool.or_eq_false_iff, decide_eq_false_iff_not]
  refine ⟨⟨⟨?_, ?_⟩, ?_⟩, ?_⟩ <;> intro hc <;> subst hc
  · exact h1 rfl
  · exact h2 rfl
  · exact h3 rfl
  · exact h4 rfl

theorem isWs_toLower (c : Char) : isWs c.toLower = isWs c := by
  by_cases h : 65 ≤ c.toNat ∧ c.toNat ≤ 90
  · have h1 := toNat_toLower_upper h
    rw [isWs_of_toNat (by omega) (by omega) (by omega) (by omega),
      isWs_of_toNat (by omega) (by omega) (by omega) (by omega)]
  · rw [toLower_eq_self h]

theorem toLower_ne_space {c : Char} (h : ¬(c = ' ')) : ¬(c.toLower = ' ') := by
  by_cases hu : 65 ≤ c.toNat ∧ c.toNat ≤ 90
  · have h1 := toNat_toLower_upper hu
    intro hc
    rw [hc] at h1
    have h32 : (' ' : Char).toNat = 32 := rfl
    omega
  · rw [toLower_eq_self hu]
    exact h

/-! ### List-level lemmas for the name normalization -/

theorem length_dropWhile_le (p : α → Bool) (l : List α) :
    (l.dropWhile p).length ≤ l.length := by
  induction l with
  | nil => exact Nat.le_refl _
  | cons a t ih =>
    rw [List.dropWhile_cons]
    split
    · exact Nat.le_trans ih (Nat.le_succ _)
    · exact Nat.le_refl _

theorem isWs_head_false {c : Char} {t : List Char}
    (h : trimLeft (c :: t) = c :: t) : isWs c = false := by
  by_contra h1
  have h1 : isWs c = true := by simpa using h1
  rw [trimLeft, List.dropWhile_cons, if_pos h1] at h
  have := length_dropWhile_le isWs t
  have := congrArg List.length h
  simp at this
  omega

theorem trimLeft_eq_self_of_prefix {l t : List Char}
    (hl : trimLeft l = l) (ht : t <+: l) : trimLeft t = t := by
  cases t with
  | nil => rfl
  | cons c u =>
    obtain ⟨s, rfl⟩ := ht
    have hc : isWs c = false := isWs_head_false (t := u ++ s) hl
    rw [trimLeft, List.dropWhile_cons, if_neg (by simp [hc])]

theorem trimRight_eq_rdropWhile (l : List Char) :
    trimRight l = List.rdropWhile isWs l := rfl

theorem trimLeft_trimLeft (l : List Char) : trimLeft (trimLeft l) = trimLeft l := by
  show List.dropWhile isWs (List.dropWhile isWs l) = List.dropWhile isWs l
  exact List.dropWhile_idempotent isWs l

theorem trimRight_trimRight (l : List Char) :
    trimRight (trimRight l) = trimRight l := by
  rw [trimRight_eq_rdropWhile, trimRight_eq_rdropWhile]
  exact List.rdropWhile_idempotent isWs l

theorem pyTrim_trimLeft_fix (x : List Char) : trimLeft (pyTrim x) = pyTrim x := by
  rw [pyTrim, trimRight_eq_rdropWhile]
  exact trimLeft_eq_self_of_prefix (trimLeft_trimLeft x) (List.rdropWhile_prefix _ _)

theorem pyTrim_trimRight_fix (x : List Char) : trimRight (pyTrim x) = pyTrim x := by
  rw [pyTrim]
  exact trimRight_trimRight _

theorem pyTrim_pyTrim (x : List Char) : pyTrim (pyTrim x) = pyTrim x := by
  have h1 := pyTrim_trimLeft_fix x
  have h2 := pyTrim_trimRight_fix x
  rw [pyTrim, h1, h2]

theorem trimLeft_map_fix {f : Char → Char}
    (hf : ∀ c, isWs (f c) = true → isWs c = true) {l : List Char}
    (hl : trimLeft l = l) : trimLeft (l.map f) = l.map f := by
  cases l with
  | nil => rfl
  | cons c t =>
    have hc : isWs c = false := isWs_head_false hl
    have hfc : isWs (f c) = false := by
      cases h : isWs (f c)
      · rfl
      · rw [hf c h] at hc; cases hc
    rw [List.map_cons, trimLeft, List.dropWhile_cons, if_neg (by simp [hfc])]

theorem trimRight_map_fix {f : Char → Char}
    (hf : ∀ c, isWs (f c) = true → isWs c = true) {l : List Char}
    (hl : trimRight l = l) : trimRight (l.map f) = l.map f := by
  have hl2 : trimLeft l.reverse = l.reverse := by
    have h0 := congrArg List.reverse hl
    rw [trimRight, List.reverse_reverse] at h0
    exact h0
  have h3 : trimLeft (l.reverse.map f) = l.reverse.map f := trimLeft_map_fix hf hl2
  rw [trimRight, ← List.map_reverse, h3, List.map_reverse, List.reverse_reverse]

theorem pyTrim_map_fix {f : Char → Char}
    (hf : ∀ c, isWs (f c) = true → isWs c = true) (x : List Char) :
    pyTrim ((pyTrim x).map f) = (pyTrim x).map f := by
  have h1 : trimLeft ((pyTrim x).map f) = (pyTrim x).map f :=
    trimLeft_map_fix hf (pyTrim_trimLeft_fix x)
  have h2 : trimRight ((pyTrim x).map f) = (pyTrim x).map f :=
    trimRight_map_fix hf (pyTrim_trimRight_fix x)
  rw [pyTrim, h1, h2]

theorem pyLower_pyLower (cs : List Char) : pyLower (pyLower cs) = pyLower cs := by
  rw [pyLower, pyLower, List.map_map]
  congr 1
  funext c
  exact charToLower_toLower c

theorem pyLower_replSpace (cs : List Char) :
    pyLower (replSpace cs) = replSpace (pyLower cs) := by
  rw [pyLower, pyLower, replSpace, replSpace, List.map_map, List.map_map]
  congr 1
  funext c
  simp only [Function.comp]
  by_cases h : c = ' '
  · subst h
    rw [if_pos rfl]
    have h1 : Char.toLower ' ' = ' ' := by decide
    rw [h1, if_pos rfl]
    decide
  · rw [if_neg h, if_neg (toLower_ne_space h)]

theorem pyLower_trimLeft (cs : List Char) :
    pyLower (trimLeft cs) = trimLeft (pyLower cs) := by
  rw [pyLower, pyLower, trimLeft, trimLeft, List.dropWhile_map]
  have hp : (isWs ∘ Char.toLower) = isWs := by
    funext c
    simp only [Function.comp]
    exact isWs_toLower c
  rw [hp]

theorem pyLower_trimRight (cs : List Char) :
    pyLower (trimRight cs) = trimRight (pyLower cs) := by
  simp only [pyLower, trimRight]
  rw [List.map_reverse]
  congr 1
  rw [← List.map_reverse]
  exact pyLower_trimLeft cs.reverse

theorem pyLower_pyTrim (cs : List Char) :
    pyLower (pyTrim cs) = pyTrim (pyLower cs) := by
  rw [pyTrim, pyTrim, pyLower_trimRight, pyLower_trimLeft]

theorem replSpace_replSpace (cs : List Char) :
    replSpace (replSpace cs) = replSpace cs := by
  rw [replSpace, replSpace, List.map_map]
  congr 1
  funext c
  simp only [Function.comp]
  by_cases h : c = ' '
  · subst h
    rw [if_pos rfl]
    decide
  · rw [if_neg h, if_neg h]

theorem isWs_replSpace_char (c : Char) :
    isWs (if c = ' ' then '_' else c) = true → isWs c = true := by
  by_cases h : c = ' '
  · subst h
    intro hc
    cases hc
  · rw [if_neg h]
    exact id

theorem normalizeName_idem (s : String) :
    normalizeName (normalizeName s) = normalizeName s := by
  rw [normalizeName, normalizeName]
  congr 1
  have hdata : (String.mk (replSpace (pyTrim (pyLower s.data)))).data
      = replSpace (pyTrim (pyLower s.data)) := rfl
  rw [hdata]
  have h1 : pyLower (replSpace (pyTrim (pyLower s.data)))
      = replSpace (pyTrim (pyLower s.data)) := by
    rw [pyLower_replSpace, pyLower_pyTrim, pyLower_pyLower]
  rw [h1]
  have h2 : pyTrim (replSpace (pyTrim (pyLower s.data)))
      = replSpace (pyTrim (pyLower s.data)) := by
    have := pyTrim_map_fix isWs_replSpace_char (pyLower s.data)
    simpa [replSpace] using this
  rw [h2]
  exact replSpace_replSpace _

/-- Claim C9: schema normalization (lower-case, trim, space-to-underscore on
every field name, values untouched) is idempotent — normalizing an already
normalized table changes no field name and no value. -/
theorem claim_C9 (t : Table) :
    normalizeTable (normalizeTable t) = normalizeTable t := by
  rw [normalizeTable, normalizeTable]
  simp only [List.map_map]
  congr 1
  congr 1
  funext s
  exact normalizeName_idem s

end Silver

namespace Silver

/-! ### Claim C7: null transaction ids are dropped silently -/

def c7cust : Table := ⟨["customer_id", "email"], [[.num 1, .str "a@x.com"]]⟩

def c7jan : Table :=
  ⟨["transaction_id", "rating", "review_date"],
   [[.str "T1", .num 5, .date 20240105], [.null, .num 4, .date 20240106]]⟩

def c7feb : Table :=
  ⟨["transaction_id", "rating", "review_date"],
   [[.str "T2", .num 3, .date 20240201]]⟩

def c7tx : Table :=
  ⟨["transaction_id", "customer_id", "amount", "payment_date", "currency",
    "status", "payment_method"],
   [[.str "T1", .num 1, .num 10, .date 100, .str "USD", .str "paid", .str "card"],
    [.str "T2", .num 1, .num 20, .date 200, .str "USD", .str "paid", .str "card"]]⟩

/-- Counterexample to claim C7: the January reviews contain one record with a
null `transaction_id`; that record contributes no order (the output is exactly
the two orders T1 and T2), yet the quarantine output of the run is empty — no
batch tagged transaction_id_null (or anything else) is produced, contradicting
the claim that such records are routed to quarantine like every other
rejected batch. -/
theorem claim_C7_counterexample :
    ((c7jan.rows.filter
        (fun r => (colVal c7jan.cols "transaction_id" r).isNull)).length = 1) ∧
    (transform_orders c7cust c7jan c7feb c7tx).2 = [] ∧
    ((transform_orders c7cust c7jan c7feb c7tx).1.rows.map
        (fun r => colVal (transform_orders c7cust c7jan c7feb c7tx).1.cols
          "order_id" r))
      = [Value.str "T1", Value.str "T2"] := by
  refine ⟨by decide, by decide, by decide⟩

theorem all_mkBatch {tbl reason x : String} (rows : List Rec) (h : ¬reason = x) :
    (mkBatch tbl reason rows).all (fun b => !decide (b.reason = x)) = true := by
  unfold mkBatch
  split
  · rfl
  · simp [h]

theorem ordersPipeline_no_tin_reason (customers o : Table) :
    (ordersPipeline customers o).2.all
      (fun b => !decide (b.reason = "transaction_id_null")) = true := by
  simp only [ordersPipeline, List.all_append, Bool.and_eq_true]
  refine ⟨⟨⟨?_, ?_⟩, ?_⟩, ?_⟩ <;> exact all_mkBatch _ (by decide)

/-- Claim C7 (amended): before the join, review and transaction records with a
null `transaction_id` are removed on each side, but silently — the run never
produces a quarantine batch with reason transaction_id_null (nor any record of
the removal): every batch `transform_orders` emits carries one of the four
reasons of its explicit rejection gates. -/
theorem claim_C7_amended (customers jan feb tx : Table) :
    (transform_orders customers jan feb tx).2.all
      (fun b => !decide (b.reason = "transaction_id_null")) = true := by
  unfold transform_orders
  split
  · rfl
  · split
    · rfl
    · dsimp only
      split
      · rfl
      · exact ordersPipeline_no_tin_reason _ _

end Silver

namespace Silver

/-! ### Column/cell access lemmas -/

theorem firstIdx_spec {c : String} : ∀ {cols : List String} {i : Nat},
    firstIdx c cols = some i → cols[i]? = some c := by
  intro cols
  induction cols with
  | nil => intro i h; cases h
  | cons x xs ih =>
    intro i h
    rw [firstIdx] at h
    by_cases hx : x = c
    · rw [if_pos hx] at h
      cases h
      simp [hx]
    · rw [if_neg hx] at h
      cases hi : firstIdx c xs with
      | none => rw [hi] at h; cases h
      | some k =>
        rw [hi] at h
        cases h
        rw [List.getElem?_cons_succ]
        exact ih hi

theorem firstIdx_mem {c : String} {cols : List String} {i : Nat}
    (h : firstIdx c cols = some i) : c ∈ cols :=
  List.getElem?_mem (firstIdx_spec h)

theorem firstIdx_ne {c c2 : String} {cols : List String} {i j : Nat}
    (hc : firstIdx c cols = some i) (hc2 : firstIdx c2 cols = some j)
    (hne : ¬(c2 = c)) : ¬(j = i) := by
  intro he
  subst he
  have h1 := firstIdx_spec hc
  have h2 := firstIdx_spec hc2
  rw [h1] at h2
  cases h2
  exact hne rfl

theorem firstIdx_append_left {c : String} : ∀ {A : List String} {i : Nat}
    (_ : firstIdx c A = some i) (B : List String),
    firstIdx c (A ++ B) = some i := by
  intro A
  induction A with
  | nil => intro i h; cases h
  | cons x xs ih =>
    intro i h B
    rw [firstIdx] at h
    rw [List.cons_append, firstIdx]
    by_cases hx : x = c
    · rw [if_pos hx] at h ⊢
      exact h
    · rw [if_neg hx] at h ⊢
      cases hi : firstIdx c xs with
      | none => rw [hi] at h; cases h
      | some k =>
        rw [hi] at h
        rw [ih hi B]
        exact h

theorem firstIdx_map_iff {c : String} {f : String → String}
    (hf : ∀ x, f x = c ↔ x = c) : ∀ (cols : List String),
    firstIdx c (cols.map f) = firstIdx c cols := by
  intro cols
  induction cols with
  | nil => rfl
  | cons x xs ih =>
    rw [List.map_cons, firstIdx, firstIdx, ih]
    by_cases hx : x = c
    · rw [if_pos ((hf x).mpr hx), if_pos hx]
    · rw [if_neg (fun he => hx ((hf x).mp he)), if_neg hx]

theorem cellAt_oor {r : Rec} {i : Nat} (h : r.length ≤ i) : cellAt r i = .null := by
  rw [cellAt, List.getD_eq_getElem?_getD, List.getElem?_eq_none h]
  rfl

theorem lt_of_cellAt_ne_null {r : Rec} {i : Nat} (h : ¬(cellAt r i = .null)) :
    i < r.length := by
  by_contra hlt
  exact h (cellAt_oor (by omega))

theorem cellAt_append_left {r z : Rec} {i : Nat} (h : i < r.length) :
    cellAt (r ++ z) i = cellAt r i := by
  rw [cellAt, cellAt, List.getD_eq_getElem?_getD, List.getD_eq_getElem?_getD,
    List.getElem?_append_left h]

theorem cellAt_set_ne {r : Rec} {i j : Nat} {v : Value} (h : ¬(j = i)) :
    cellAt (r.set j v) i = cellAt r i := by
  rw [cellAt, cellAt, List.getD_eq_getElem?_getD, List.getD_eq_getElem?_getD,
    List.getElem?_set_ne h]

theorem cellAt_set_self {r : Rec} {j : Nat} {v : Value} :
    cellAt (r.set j v) j = v ∨ (cellAt (r.set j v) j = .null ∧ cellAt r j = .null) := by
  by_cases h : j < r.length
  · left
    rw [cellAt, List.getD_eq_getElem?_getD, List.getElem?_set_self h]
    rfl
  · right
    rw [List.set_eq_of_length_le (by omega)]
    exact ⟨cellAt_oor (by omega), cellAt_oor (by omega)⟩

theorem colVal_cons {x : String} {cols : List String} {c : String}
    {v : Value} {r : Rec} :
    colVal (x :: cols) c (v :: r) = if x = c then v else colVal cols c r := by
  by_cases hx : x = c
  · rw [if_pos hx, colVal, firstIdx, if_pos hx]
    rfl
  · rw [if_neg hx, colVal, colVal, firstIdx, if_neg hx]
    cases hi : firstIdx c cols with
    | none => rfl
    | some k => rfl

theorem colVal_eq_cellAt {cols : List String} {c : String} {i : Nat}
    (h : firstIdx c cols = some i) (r : Rec) : colVal cols c r = cellAt r i := by
  rw [colVal, h]

theorem colVal_eq_null {cols : List String} {c : String}
    (h : firstIdx c cols = none) (r : Rec) : colVal cols c r = .null := by
  rw [colVal, h]

/-! ### mapCol lemmas -/

theorem mapCol_cols (t : Table) (c : String) (f : Value → Value) :
    (mapCol t c f).cols = t.cols := by
  rw [mapCol]
  cases firstIdx c t.cols <;> rfl

theorem mapCol_map_other {t : Table} {c c2 : String} {f : Value → Value}
    (h : ¬(c2 = c)) :
    (mapCol t c f).rows.map (colVal t.cols c2) = t.rows.map (colVal t.cols c2) := by
  rw [mapCol]
  cases hj : firstIdx c t.cols with
  | none => rfl
  | some j =>
    simp only [List.map_map]
    apply List.map_congr_left
    intro r _
    simp only [Function.comp]
    cases hi : firstIdx c2 t.cols with
    | none => rw [colVal_eq_null hi, colVal_eq_null hi]
    | some i =>
      rw [colVal_eq_cellAt hi, colVal_eq_cellAt hi]
      exact cellAt_set_ne (fun he => firstIdx_ne hj hi h he.symm)

theorem mapCol_mem {t : Table} {c : String} {f : Value → Value} {s : Rec}
    (hs : s ∈ (mapCol t c f).rows) :
    ∃ r ∈ t.rows,
      (∀ c2, ¬(c2 = c) → colVal t.cols c2 s = colVal t.cols c2 r) ∧
      (colVal t.cols c s = f (colVal t.cols c r) ∨
        (colVal t.cols c s = .null ∧ colVal t.cols c r = .null)) := by
  rw [mapCol] at hs
  cases hj : firstIdx c t.cols with
  | none =>
    rw [hj] at hs
    refine ⟨s, hs, fun c2 _ => rfl, ?_⟩
    right
    exact ⟨colVal_eq_null hj s, colVal_eq_null hj s⟩
  | some j =>
    rw [hj] at hs
    simp only [List.mem_map] at hs
    obtain ⟨r, hr, hrs⟩ := hs
    refine ⟨r, hr, ?_, ?_⟩
    · intro c2 h2
      rw [← hrs]
      cases hi : firstIdx c2 t.cols with
      | none => rw [colVal_eq_null hi, colVal_eq_null hi]
      | some i =>
        rw [colVal_eq_cellAt hi, colVal_eq_cellAt hi]
        exact cellAt_set_ne (fun he => firstIdx_ne hj hi h2 he.symm)
    · rw [← hrs, colVal_eq_cellAt hj, colVal_eq_cellAt hj]
      rcases cellAt_set_self (r := r) (j := j) (v := f (cellAt r j)) with h | ⟨h1, h2⟩
      · left; rw [h]
      · right; rw [h1, h2]; exact ⟨rfl, rfl⟩

/-! ### Gate membership lemmas -/

theorem rejectRows_kept_cols (t : Table) (c : String) (bad : Value → Bool) :
    (rejectRows t c bad).kept.cols = t.cols := rfl

theorem rejectRows_kept_mem {t : Table} {c : String} {bad : Value → Bool} {r : Rec}
    (h : r ∈ (rejectRows t c bad).kept.rows) :
    r ∈ t.rows ∧ bad (colVal t.cols c r) = false := by
  rw [rejectRows] at h
  simp only [List.mem_filter, Bool.not_eq_eq_eq_not, Bool.not_true] at h
  exact h

theorem markDups_mem_fst {key : Rec → Value} : ∀ {seen : List Value}
    {l : List Rec} {p : Rec × Bool}, p ∈ markDups key seen l → p.1 ∈ l := by
  intro seen l
  induction l generalizing seen with
  | nil => intro p h; cases h
  | cons r rs ih =>
    intro p h
    rw [markDups] at h
    rcases List.mem_cons.mp h with h | h
    · subst h; exact List.mem_cons_self _ _
    · exact List.mem_cons_of_mem _ (ih h)

theorem dedupGate_kept_cols (t : Table) (c : String) :
    (dedupGate t c).kept.cols = t.cols := rfl

theorem dedupGate_kept_mem {t : Table} {c : String} {r : Rec}
    (h : r ∈ (dedupGate t c).kept.rows) : r ∈ t.rows := by
  rw [dedupGate] at h
  simp only [List.mem_map, List.mem_filter] at h
  obtain ⟨p, ⟨hp, _⟩, he⟩ := h
  exact he ▸ markDups_mem_fst hp

theorem markDups_kept_nodup (key : Rec → Value) : ∀ (l : List Rec) (seen : List Value),
    ((((markDups key seen l).filter (fun p => !p.2)).map Prod.fst).map key).Nodup ∧
    ∀ r ∈ ((markDups key seen l).filter (fun p => !p.2)).map Prod.fst,
      ¬(key r ∈ seen) := by
  intro l
  induction l with
  | nil => exact fun seen => ⟨List.nodup_nil, by intro r h; cases h⟩
  | cons r rs ih =>
    intro seen
    rw [markDups]
    by_cases hm : key r ∈ seen
    · rw [List.filter_cons, if_neg (by simp [hm])]
      obtain ⟨h1, h2⟩ := ih (key r :: seen)
      refine ⟨h1, fun s hs hmem => h2 s hs (List.mem_cons_of_mem _ hmem)⟩
    · rw [List.filter_cons, if_pos (by simp [hm])]
      obtain ⟨h1, h2⟩ := ih (key r :: seen)
      simp only [List.map_cons]
      refine ⟨List.Nodup.cons ?_ h1, ?_⟩
      · intro hmem
        obtain ⟨v, hv, he⟩ := List.mem_map.mp hmem
        exact h2 v hv (he ▸ List.mem_cons_self _ _)
      · intro s hs
        rcases List.mem_cons.mp hs with h | h
        · subst h; exact hm
        · exact fun hmem => h2 s h (List.mem_cons_of_mem _ hmem)

theorem dedupGate_nodup (t : Table) (c : String) :
    ((dedupGate t c).kept.rows.map (colVal t.cols c)).Nodup :=
  (markDups_kept_nodup (colVal t.cols c) t.rows []).1

/-! ### Transport of a per-row property along a map-preserved column -/

theorem forall_prop_of_map_eq {cols : List String} {c2 : String}
    {rows rowsB : List Rec}
    (hmap : rowsB.map (colVal cols c2) = rows.map (colVal cols c2))
    {P : Value → Prop} (h : ∀ r ∈ rows, P (colVal cols c2 r)) :
    ∀ s ∈ rowsB, P (colVal cols c2 s) := by
  intro s hs
  have hmem : colVal cols c2 s ∈ rows.map (colVal cols c2) := by
    rw [← hmap]
    exact List.mem_map_of_mem _ hs
  obtain ⟨r, hr, he⟩ := List.mem_map.mp hmem
  rw [← he]
  exact h r hr

end Silver

namespace Silver

/-! ### Stage lemmas for the customers pipeline -/

theorem custG4_cols (df : Table) : (custG4 df).kept.cols = df.cols := rfl

theorem custG5_cols (df : Table) : (custG5 df).kept.cols = df.cols := rfl

theorem custNorm_cols (df : Table) : (custNorm df).cols = df.cols := by
  rw [custNorm, mapCol_cols]
  rfl

theorem custG7_cols (df : Table) : (custG7 df).kept.cols = df.cols := by
  rw [custG7, rejectRows_kept_cols, custNorm_cols]

theorem custG8_cols (df : Table) : (custG8 df).kept.cols = df.cols := by
  rw [custG8, dedupGate_kept_cols, custG7_cols]

theorem coerceDateCols_cols (t : Table) : (coerceDateCols t).cols = t.cols := by
  rw [coerceDateCols, mapCol_cols, mapCol_cols]

theorem coerceDateCols_map (t : Table) (c2 : String)
    (h1 : ¬(c2 = "registration_date")) (h2 : ¬(c2 = "birth_date")) :
    (coerceDateCols t).rows.map (colVal t.cols c2)
      = t.rows.map (colVal t.cols c2) := by
  rw [coerceDateCols]
  have e2 := mapCol_map_other
    (t := mapCol t "registration_date" toDatetime) (f := toDatetime) h2
  rw [mapCol_cols] at e2
  rw [e2]
  exact mapCol_map_other h1

theorem foldl_mapCol_cols (f : Value → Value) :
    ∀ (cs : List String) (t : Table),
    (cs.foldl (fun a c => mapCol a c f) t).cols = t.cols := by
  intro cs
  induction cs with
  | nil => intro t; rfl
  | cons c cs ih =>
    intro t
    rw [List.foldl_cons, ih, mapCol_cols]

theorem foldl_mapCol_map (f : Value → Value) (c2 : String) :
    ∀ (cs : List String), (∀ c ∈ cs, ¬(c = c2)) → ∀ (t : Table),
    (cs.foldl (fun a c => mapCol a c f) t).rows.map (colVal t.cols c2)
      = t.rows.map (colVal t.cols c2) := by
  intro cs
  induction cs with
  | nil => intro _ t; rfl
  | cons c cs ih =>
    intro h t
    rw [List.foldl_cons]
    have e1 := ih (fun x hx => h x (List.mem_cons_of_mem _ hx)) (mapCol t c f)
    rw [mapCol_cols] at e1
    rw [e1]
    exact mapCol_map_other (fun he => h c (List.mem_cons_self _ _) he.symm)

theorem cleanTextCols_cols (t : Table) : (cleanTextCols t).cols = t.cols :=
  foldl_mapCol_cols cleanCell _ t

theorem cleanTextCols_map (t : Table) (c2 : String)
    (h : c2 = "customer_id" ∨ c2 = "email") :
    (cleanTextCols t).rows.map (colVal t.cols c2)
      = t.rows.map (colVal t.cols c2) := by
  apply foldl_mapCol_map
  intro c hc he
  have hc2 := (List.mem_filter.mp hc).2
  rw [he] at hc2
  rcases h with h | h <;> rw [h] at hc2 <;> simp at hc2

/-- The normalized email is a fixed point of lower-casing and trimming. -/
theorem emailNormalize_fix (v : Value) :
    ∃ s, emailNormalize v = .str s ∧ pyTrim (pyLower s.data) = s.data := by
  refine ⟨String.mk (pyTrim (pyLower v.astypeStr.data)), rfl, ?_⟩
  have hd : (String.mk (pyTrim (pyLower v.astypeStr.data))).data
      = pyTrim (pyLower v.astypeStr.data) := rfl
  rw [hd, pyLower_pyTrim, pyLower_pyLower, pyTrim_pyTrim]

/-- Per-record guarantees right after the email-format gate. -/
theorem custG7_props (df : Table) :
    ∀ r ∈ (custG7 df).kept.rows,
      (colVal df.cols "customer_id" r).isNull = false ∧
      ∃ s, colVal df.cols "email" r = .str s ∧ matchEmail s.data = true ∧
        pyTrim (pyLower s.data) = s.data := by
  intro r hr
  have h7 := rejectRows_kept_mem hr
  rw [custNorm_cols] at h7
  obtain ⟨hrN, hbad⟩ := h7
  obtain ⟨r5, hr5, hother, hself⟩ := mapCol_mem hrN
  rw [custG5_cols] at hother hself
  have hcid : (colVal df.cols "customer_id" r5).isNull = false := by
    have h5 := rejectRows_kept_mem hr5
    rw [custG4_cols] at h5
    have h4 := rejectRows_kept_mem h5.1
    exact h4.2
  constructor
  · rw [hother "customer_id" (by decide)]
    exact hcid
  · rcases hself with hself | ⟨hnull, _⟩
    · obtain ⟨s, hs, hfix⟩ := emailNormalize_fix (colVal df.cols "email" r5)
      refine ⟨s, by rw [hself, hs], ?_, hfix⟩
      rw [hself, hs] at hbad
      have hb2 : (!matchEmail s.data) = false := hbad
      cases hm : matchEmail s.data
      · rw [hm] at hb2; cases hb2
      · rfl
    · rw [hnull] at hbad
      cases hbad

/-- Per-record guarantees and key uniqueness of the full customers pipeline. -/
theorem customersPipeline_props (df : Table) :
    (customersPipeline df).1.cols = df.cols ∧
    (∀ r ∈ (customersPipeline df).1.rows,
      (colVal df.cols "customer_id" r).isNull = false ∧
      ∃ s, colVal df.cols "email" r = .str s ∧ matchEmail s.data = true ∧
        pyTrim (pyLower s.data) = s.data) ∧
    ((customersPipeline df).1.rows.map (colVal df.cols "customer_id")).Nodup := by
  have hout : (customersPipeline df).1
      = cleanTextCols (coerceDateCols (custG8 df).kept) := rfl
  have hc8 : (coerceDateCols (custG8 df).kept).cols = df.cols := by
    rw [coerceDateCols_cols, custG8_cols]
  have hcolsOut : (customersPipeline df).1.cols = df.cols := by
    rw [hout, cleanTextCols_cols, hc8]
  -- column-value lists are preserved by the date coercion and text cleanup
  have hmap : ∀ c2, (c2 = "customer_id" ∨ c2 = "email") →
      (customersPipeline df).1.rows.map (colVal df.cols c2)
        = (custG8 df).kept.rows.map (colVal df.cols c2) := by
    intro c2 hc2
    have e1 := cleanTextCols_map (coerceDateCols (custG8 df).kept) c2 hc2
    rw [hc8] at e1
    have e2 := coerceDateCols_map (custG8 df).kept c2
      (by rcases hc2 with h | h <;> subst h <;> decide)
      (by rcases hc2 with h | h <;> subst h <;> decide)
    rw [custG8_cols] at e2
    rw [hout, e1, e2]
  -- per-record guarantees at the dedup stage
  have h8 : ∀ r ∈ (custG8 df).kept.rows,
      (colVal df.cols "customer_id" r).isNull = false ∧
      ∃ s, colVal df.cols "email" r = .str s ∧ matchEmail s.data = true ∧
        pyTrim (pyLower s.data) = s.data := by
    intro r hr
    exact custG7_props df r (dedupGate_kept_mem hr)
  refine ⟨hcolsOut, ?_, ?_⟩
  · intro r hr
    constructor
    · exact forall_prop_of_map_eq (hmap "customer_id" (Or.inl rfl))
        (P := fun v => v.isNull = false)
        (fun r2 h2 => (h8 r2 h2).1) r hr
    · exact forall_prop_of_map_eq (hmap "email" (Or.inr rfl))
        (P := fun v => ∃ s, v = .str s ∧ matchEmail s.data = true ∧
          pyTrim (pyLower s.data) = s.data)
        (fun r2 h2 => (h8 r2 h2).2) r hr
  · rw [hmap "customer_id" (Or.inl rfl)]
    have := dedupGate_nodup (custG7 df).kept "customer_id"
    rw [custG7_cols] at this
    exact this

/-- Claim C2: every record accepted by `transform_customers` has a non-null
`customer_id`, unique within the output, and a non-null email that, after
lower-casing and trimming, matches the validation pattern. -/
theorem claim_C2 (df0 : Table) :
    ((transform_customers df0).1.rows.all (fun r =>
        !(colVal (transform_customers df0).1.cols "customer_id" r).isNull
          && emailWellFormed
              (colVal (transform_customers df0).1.cols "email" r))) = true
    ∧ ((transform_customers df0).1.rows.map
        (colVal (transform_customers df0).1.cols "customer_id")).Nodup := by
  rw [transform_customers]
  split
  · next he =>
    have h0 : df0.rows = [] := List.isEmpty_iff.mp he
    constructor
    · rw [h0]; rfl
    · rw [h0]; exact List.nodup_nil
  · dsimp only
    split
    · next hcond =>
      obtain ⟨hcols, hprops, hnodup⟩ := customersPipeline_props (normalizeTable df0)
      constructor
      · rw [List.all_eq_true]
        intro r hr
        obtain ⟨hcid, s, hes, hm, hfix⟩ := hprops r hr
        rw [hcols]
        simp only [Bool.and_eq_true, Bool.not_eq_eq_eq_not, Bool.not_true]
        refine ⟨hcid, ?_⟩
        rw [hes, emailWellFormed, hfix]
        exact hm
      · rw [hcols]
        exact hnodup
    · exact ⟨rfl, List.nodup_nil⟩

end Silver

namespace Silver

/-! ### Merge and projection lemmas for the orders pipeline -/

theorem ne_null_of_isNull_false {v : Value} (h : v.isNull = false) :
    ¬(v = .null) := by
  intro he
  subst he
  cases h

theorem mergeOn_mem {l r : Table} {key sl sr : String} {s : Rec}
    (hs : s ∈ (mergeOn l r key sl sr).rows) :
    ∃ i j lr rr, firstIdx key l.cols = some i ∧ firstIdx key r.cols = some j ∧
      lr ∈ l.rows ∧ rr ∈ r.rows ∧ s = lr ++ rr.eraseIdx j ∧
      joinEq (cellAt lr i) (cellAt rr j) = true := by
  simp only [mergeOn] at hs
  cases hi : firstIdx key l.cols with
  | none =>
    rw [hi] at hs
    cases hj : firstIdx key r.cols <;> rw [hj] at hs <;> simp at hs
  | some i =>
    cases hj : firstIdx key r.cols with
    | none => rw [hi, hj] at hs; simp at hs
    | some j =>
      rw [hi, hj] at hs
      simp only [List.mem_flatMap, List.mem_map, List.mem_filter] at hs
      obtain ⟨lr, hlr, rr, ⟨hrr, hjoin⟩, he⟩ := hs
      exact ⟨i, j, lr, rr, rfl, rfl, hlr, hrr, he.symm, hjoin⟩

theorem joinEq_spec {a b : Value} (h : joinEq a b = true) :
    a = b ∧ a.isNull = false := by
  rw [joinEq, Bool.and_eq_true, decide_eq_true_eq] at h
  obtain ⟨h1, h2⟩ := h
  refine ⟨h1, ?_⟩
  cases hn : a.isNull
  · rfl
  · rw [hn] at h2; cases h2

theorem firstIdx_mergeCols {lc rc : List String} {key sl : String} {sr : String}
    {i : Nat} (hsl : ∀ x : String, ¬(x ++ sl = key))
    (hi : firstIdx key lc = some i) :
    firstIdx key (mergeCols lc rc key sl sr) = some i := by
  rw [mergeCols]
  apply firstIdx_append_left
  rw [firstIdx_map_iff]
  · exact hi
  · intro x
    constructor
    · intro hx
      by_cases hc : (!(x = key) && rc.contains x : Bool) = true
      · rw [if_pos hc] at hx
        exact absurd hx (hsl x)
      · rw [if_neg hc] at hx
        exact hx
    · intro hx
      subst hx
      simp

theorem key_mem_mergeCols {lc rc : List String} {key sl sr : String}
    (h : key ∈ lc) : key ∈ mergeCols lc rc key sl sr := by
  rw [mergeCols]
  apply List.mem_append_left
  apply List.mem_map.mpr
  refine ⟨key, h, ?_⟩
  simp

theorem mergeOn_key_read {l r : Table} {key sl sr : String} {i j : Nat}
    {lr rr : Rec} (hsl : ∀ x : String, ¬(x ++ sl = key))
    (hi : firstIdx key l.cols = some i)
    (hjoin : joinEq (cellAt lr i) (cellAt rr j) = true) :
    colVal (mergeOn l r key sl sr).cols key (lr ++ rr.eraseIdx j)
      = cellAt rr j ∧ (cellAt rr j).isNull = false := by
  obtain ⟨heq, hnn⟩ := joinEq_spec hjoin
  have hilt : i < lr.length := lt_of_cellAt_ne_null (ne_null_of_isNull_false hnn)
  have hidx : firstIdx key (mergeOn l r key sl sr).cols = some i :=
    firstIdx_mergeCols hsl hi
  rw [colVal_eq_cellAt hidx, cellAt_append_left hilt, heq]
  refine ⟨rfl, ?_⟩
  rw [← heq]
  exact hnn

theorem customerLookup_key (t : Table) :
    firstIdx "customer_id" (customerLookup t).cols = some 0 := rfl

theorem customerLookup_mem {t : Table} {rr : Rec}
    (h : rr ∈ (customerLookup t).rows) :
    ∃ cr ∈ t.rows, cellAt rr 0 = colVal t.cols "customer_id" cr := by
  simp only [customerLookup, List.mem_map] at h
  obtain ⟨cr, hcr, he⟩ := h
  exact ⟨cr, hcr, by rw [← he]; rfl⟩

theorem append_x_ne (x : String) : ¬(x ++ "_x" = "customer_id") := by
  intro h
  have hd := congrArg (fun s : String => s.data.reverse) h
  simp only [String.data_append, List.reverse_append] at hd
  have h1 : ("_x" : String).data.reverse = ['x', '_'] := by decide
  have h2 : ("customer_id" : String).data.reverse
      = ['d', 'i', '_', 'r', 'e', 'm', 'o', 't', 's', 'u', 'c'] := by decide
  rw [h1, h2] at hd
  simp at hd

theorem ordersJoined_customer (customers o : Table) :
    ∀ s ∈ (ordersJoined customers o).rows,
      ∃ cr ∈ customers.rows,
        colVal (ordersJoined customers o).cols "customer_id" s
          = colVal customers.cols "customer_id" cr ∧
        (colVal (ordersJoined customers o).cols "customer_id" s).isNull
          = false := by
  intro s hs
  rw [ordersJoined] at hs ⊢
  obtain ⟨i, j, lr, rr, hi, hj, hlr, hrr, he, hjoin⟩ := mergeOn_mem hs
  have hj0 : j = 0 := by
    rw [customerLookup_key] at hj
    cases hj
    rfl
  subst hj0
  subst he
  obtain ⟨hval, hnn⟩ := mergeOn_key_read append_x_ne hi hjoin
  obtain ⟨cr, hcr, hcell⟩ := customerLookup_mem hrr
  refine ⟨cr, hcr, ?_, ?_⟩
  · rw [hval, hcell]
  · rw [hval]
    exact hnn

theorem colVal_pairs (τ κ : String) :
    ∀ (m : List (String × String)) (g : String → Value),
    (∀ p ∈ m, p.2 = τ → p.1 = κ) →
    colVal (m.map Prod.snd) τ (m.map (fun p => g p.1))
      = if τ ∈ m.map Prod.snd then g κ else Value.null := by
  intro m
  induction m with
  | nil =>
    intro g h
    rw [if_neg (by simp)]
    rfl
  | cons p ps ih =>
    intro g h
    rw [List.map_cons, List.map_cons, colVal_cons]
    by_cases hp : p.2 = τ
    · rw [if_pos hp, if_pos (hp ▸ List.mem_cons_self _ _),
        h p (List.mem_cons_self _ _) hp]
    · rw [if_neg hp, ih g (fun q hq => h q (List.mem_cons_of_mem _ hq))]
      by_cases hm : τ ∈ ps.map Prod.snd
      · rw [if_pos hm, if_pos (List.mem_cons_of_mem _ hm)]
      · rw [if_neg hm, if_neg ?_]
        intro hc
        rcases List.mem_cons.mp hc with hc | hc
        · exact hp hc.symm
        · exact hm hc

theorem projectRename_read (t : Table) (τ κ : String)
    (hmap : ∀ p ∈ columnMapping, p.2 = τ → p.1 = κ) (r : Rec) :
    colVal (projectRename t).cols τ
        ((columnMapping.filter (fun p => t.cols.contains p.1)).map
          (fun p => colVal t.cols p.1 r))
      = if τ ∈ (projectRename t).cols then colVal t.cols κ r
        else Value.null := by
  have h2 : ∀ p ∈ columnMapping.filter (fun p => t.cols.contains p.1),
      p.2 = τ → p.1 = κ := fun p hp => hmap p (List.mem_filter.mp hp).1
  exact colVal_pairs τ κ (columnMapping.filter (fun p => t.cols.contains p.1))
    (fun c => colVal t.cols c r) h2

theorem projectRename_mem {t : Table} {s : Rec}
    (hs : s ∈ (projectRename t).rows) :
    ∃ r ∈ t.rows,
      s = (columnMapping.filter (fun p => t.cols.contains p.1)).map
        (fun p => colVal t.cols p.1 r) := by
  simp only [projectRename, List.mem_map] at hs
  obtain ⟨r, hr, he⟩ := hs
  exact ⟨r, hr, he.symm⟩

theorem columnMapping_cid :
    ∀ p ∈ columnMapping, p.2 = "customer_id" → p.1 = "customer_id" := by decide

theorem cid_mem_projectRename {t : Table} (h : "customer_id" ∈ t.cols) :
    "customer_id" ∈ (projectRename t).cols := by
  show "customer_id" ∈ (columnMapping.filter
    (fun p => t.cols.contains p.1)).map Prod.snd
  apply List.mem_map.mpr
  refine ⟨("customer_id", "customer_id"), List.mem_filter.mpr ⟨by decide, ?_⟩, rfl⟩
  simp [List.contains]
  exact h

theorem ordersProjected_customer (customers o : Table) :
    ∀ s ∈ (ordersProjected customers o).rows,
      ∃ cr ∈ customers.rows,
        colVal (ordersProjected customers o).cols "customer_id" s
          = colVal customers.cols "customer_id" cr ∧
        (colVal (ordersProjected customers o).cols "customer_id" s).isNull
          = false := by
  intro s hs
  rw [ordersProjected] at hs ⊢
  obtain ⟨r1, hr1, he⟩ := projectRename_mem hs
  obtain ⟨cr, hcr, hval, hnn⟩ := ordersJoined_customer customers o r1 hr1
  have hcolmem : "customer_id" ∈ (ordersJoined customers o).cols := by
    have hs2 := hr1
    rw [ordersJoined] at hs2
    obtain ⟨i, j, lr, rr, hi, _, _, _, _, _⟩ := mergeOn_mem hs2
    rw [ordersJoined]
    exact key_mem_mergeCols (firstIdx_mem hi)
  have hread := projectRename_read (ordersJoined customers o)
    "customer_id" "customer_id" columnMapping_cid r1
  rw [← he, if_pos (cid_mem_projectRename hcolmem)] at hread
  refine ⟨cr, hcr, ?_, ?_⟩
  · rw [hread]
    exact hval
  · rw [hread]
    exact hnn

end Silver

namespace Silver

/-! ### Coercion-stage and gate lemmas for the orders pipeline -/

theorem ordersCoerced_cols (customers o : Table) :
    (ordersCoerced customers o).cols = (ordersProjected customers o).cols := by
  rw [ordersCoerced, mapCol_cols, mapCol_cols, mapCol_cols, mapCol_cols]

theorem ordersCoerced_map_other (customers o : Table) (c2 : String)
    (h1 : ¬(c2 = "order_date")) (h2 : ¬(c2 = "review_date"))
    (h3 : ¬(c2 = "amount")) (h4 : ¬(c2 = "rating")) :
    (ordersCoerced customers o).rows.map
        (colVal (ordersProjected customers o).cols c2)
      = (ordersProjected customers o).rows.map
        (colVal (ordersProjected customers o).cols c2) := by
  rw [ordersCoerced]
  have e4 := mapCol_map_other
    (t := mapCol (mapCol (mapCol (ordersProjected customers o)
      "order_date" toDatetime) "review_date" toDatetime) "amount" coerceAmount)
    (f := coerceNumeric) h4
  rw [mapCol_cols, mapCol_cols, mapCol_cols] at e4
  rw [e4]
  have e3 := mapCol_map_other
    (t := mapCol (mapCol (ordersProjected customers o) "order_date" toDatetime)
      "review_date" toDatetime) (f := coerceAmount) h3
  rw [mapCol_cols, mapCol_cols] at e3
  rw [e3]
  have e2 := mapCol_map_other
    (t := mapCol (ordersProjected customers o) "order_date" toDatetime)
    (f := toDatetime) h2
  rw [mapCol_cols] at e2
  rw [e2]
  exact mapCol_map_other h1

theorem coerceAmount_range (v : Value) :
    coerceAmount v = .null ∨ ∃ q, coerceAmount v = .num q := by
  cases v with
  | null => left; rfl
  | date n => left; rfl
  | num q => right; exact ⟨q, rfl⟩
  | str s =>
    simp only [coerceAmount]
    cases hp : parseDecimal (stripMoney s.data) with
    | none => left; rfl
    | some q => right; exact ⟨q, rfl⟩

theorem ordersCoerced_amount (customers o : Table) :
    ∀ s ∈ (ordersCoerced customers o).rows,
      colVal (ordersProjected customers o).cols "amount" s = .null ∨
      ∃ q, colVal (ordersProjected customers o).cols "amount" s = .num q := by
  intro s hs
  rw [ordersCoerced] at hs
  obtain ⟨r3, hr3, hother4, _⟩ := mapCol_mem hs
  have h4 := hother4 "amount" (by decide)
  rw [mapCol_cols, mapCol_cols, mapCol_cols] at h4
  obtain ⟨r2, hr2, _, hself3⟩ := mapCol_mem hr3
  rw [mapCol_cols, mapCol_cols] at hself3
  rw [h4]
  rcases hself3 with hself | ⟨hnull, _⟩
  · rw [hself]
    exact coerceAmount_range _
  · rw [hnull]
    left
    rfl

theorem ordersCoerced_customer (customers o : Table) :
    ∀ s ∈ (ordersCoerced customers o).rows,
      occursIn customers "customer_id"
        (colVal (ordersProjected customers o).cols "customer_id" s) = true := by
  have hmapeq := ordersCoerced_map_other customers o "customer_id"
    (by decide) (by decide) (by decide) (by decide)
  apply forall_prop_of_map_eq
    (P := fun v => occursIn customers "customer_id" v = true) hmapeq
  intro r hr
  obtain ⟨cr, hcr, hval, _⟩ := ordersProjected_customer customers o r hr
  rw [occursIn, List.any_eq_true]
  refine ⟨cr, hcr, ?_⟩
  simp only [decide_eq_true_eq]
  exact hval.symm

theorem ordersG9_cols (customers o : Table) :
    (ordersG9 customers o).kept.cols = (ordersProjected customers o).cols := by
  rw [ordersG9, rejectRows_kept_cols, ordersCoerced_cols]

theorem ordersG10_cols (customers o : Table) :
    (ordersG10 customers o).kept.cols = (ordersProjected customers o).cols := by
  rw [ordersG10, rejectRows_kept_cols, ordersG9_cols]

theorem ordersG9_props (customers o : Table) :
    ∀ s ∈ (ordersG9 customers o).kept.rows,
      s ∈ (ordersCoerced customers o).rows ∧
      amountPos (colVal (ordersProjected customers o).cols "amount" s) = true := by
  intro s hs
  rw [ordersG9] at hs
  have h := rejectRows_kept_mem hs
  rw [ordersCoerced_cols] at h
  refine ⟨h.1, ?_⟩
  rcases ordersCoerced_amount customers o s h.1 with hnull | ⟨q, hq⟩
  · rw [hnull] at h
    cases h.2
  · rw [hq] at h ⊢
    have hb : decide (q ≤ 0) = false := h.2
    rw [decide_eq_false_iff_not] at hb
    show decide (0 < q) = true
    rw [decide_eq_true_eq]
    exact not_le.mp hb

theorem ordersG10_props (customers o : Table) :
    ∀ s ∈ (ordersG10 customers o).kept.rows,
      s ∈ (ordersG9 customers o).kept.rows ∧
      (colVal (ordersProjected customers o).cols "order_date" s).isNull
        = false := by
  intro s hs
  rw [ordersG10] at hs
  have h := rejectRows_kept_mem hs
  rw [ordersG9_cols] at h
  exact h

theorem ordersPipeline_out_cols (customers o : Table) :
    (ordersPipeline customers o).1.cols
      = (ordersProjected customers o).cols := by
  show (ordersG11 customers o).kept.cols = _
  rw [ordersG11, dedupGate_kept_cols, ordersG10_cols]

theorem ordersPipeline_props (customers o : Table) :
    (∀ s ∈ (ordersPipeline customers o).1.rows,
      amountPos (colVal (ordersProjected customers o).cols "amount" s) = true ∧
      (colVal (ordersProjected customers o).cols "order_date" s).isNull = false ∧
      occursIn customers "customer_id"
        (colVal (ordersProjected customers o).cols "customer_id" s) = true) ∧
    ((ordersPipeline customers o).1.rows.map
        (colVal (ordersProjected customers o).cols "order_id")).Nodup := by
  constructor
  · intro s hs
    have hs11 : s ∈ (ordersG11 customers o).kept.rows := hs
    rw [ordersG11] at hs11
    have hs10 : s ∈ (ordersG10 customers o).kept.rows := dedupGate_kept_mem hs11
    obtain ⟨hs9, hdate⟩ := ordersG10_props customers o s hs10
    obtain ⟨hsC, hamt⟩ := ordersG9_props customers o s hs9
    exact ⟨hamt, hdate, ordersCoerced_customer customers o s hsC⟩
  · have hnd := dedupGate_nodup (ordersG10 customers o).kept "order_id"
    rw [ordersG10_cols] at hnd
    show (((ordersG11 customers o).kept.rows).map
      (colVal (ordersProjected customers o).cols "order_id")).Nodup
    rw [ordersG11]
    exact hnd

/-- Shared helper: every accepted order of `transform_orders` carries the
guaranteed amount, date, key-uniqueness and referential-integrity facts. -/
theorem transform_orders_props (customers jan feb tx : Table) :
    (∀ s ∈ (transform_orders customers jan feb tx).1.rows,
      amountPos (colVal (transform_orders customers jan feb tx).1.cols
        "amount" s) = true ∧
      (colVal (transform_orders customers jan feb tx).1.cols
        "order_date" s).isNull = false ∧
      occursIn customers "customer_id"
        (colVal (transform_orders customers jan feb tx).1.cols
          "customer_id" s) = true) ∧
    ((transform_orders customers jan feb tx).1.rows.map
      (colVal (transform_orders customers jan feb tx).1.cols
        "order_id")).Nodup := by
  rw [transform_orders]
  split
  · exact ⟨fun s hs => absurd hs (List.not_mem_nil s), List.nodup_nil⟩
  · split
    · exact ⟨fun s hs => absurd hs (List.not_mem_nil s), List.nodup_nil⟩
    · dsimp only
      split
      · exact ⟨fun s hs => absurd hs (List.not_mem_nil s), List.nodup_nil⟩
      · obtain ⟨hprops, hnodup⟩ :=
          ordersPipeline_props customers (ordersJoin jan feb tx)
        rw [ordersPipeline_out_cols]
        exact ⟨hprops, hnodup⟩

/-- Claim C1: every record of the orders table returned by `transform_orders`
has a strictly positive amount, a non-null order date and a customer id that
occurs in the accepted customers table passed in as argument (no orphan
orders), and its order id is unique within the table. -/
theorem claim_C1 (customers jan feb tx : Table) :
    ((transform_orders customers jan feb tx).1.rows.all (fun r =>
        amountPos (colVal (transform_orders customers jan feb tx).1.cols
            "amount" r)
          && !(colVal (transform_orders customers jan feb tx).1.cols
            "order_date" r).isNull
          && occursIn customers "customer_id"
            (colVal (transform_orders customers jan feb tx).1.cols
              "customer_id" r))) = true
    ∧ ((transform_orders customers jan feb tx).1.rows.map
        (colVal (transform_orders customers jan feb tx).1.cols
          "order_id")).Nodup := by
  obtain ⟨hprops, hnodup⟩ := transform_orders_props customers jan feb tx
  refine ⟨?_, hnodup⟩
  rw [List.all_eq_true]
  intro r hr
  obtain ⟨h1, h2, h3⟩ := hprops r hr
  simp only [Bool.and_eq_true]
  refine ⟨⟨h1, ?_⟩, h3⟩
  rw [h2]
  rfl

end Silver

namespace Silver

/-! ### Claim C8: the report counts distinct emails, not referenced customers -/

def c8craw : Table :=
  ⟨["customer_id", "email"],
   [[.num 1, .str "a@x.com"], [.num 2, .str "a@x.com"]]⟩

def c8jan : Table := ⟨["transaction_id", "rating"], [[.str "T1", .num 5]]⟩

def c8feb : Table := ⟨["transaction_id", "rating"], [[.str "T2", .num 4]]⟩

def c8tx : Table :=
  ⟨["transaction_id", "customer_id", "amount", "payment_date"],
   [[.str "T1", .num 1, .num 10, .date 100],
    [.str "T2", .num 2, .num 20, .date 200]]⟩

def c8cdf : Table := (transform_customers c8craw).1

def c8odf : Table := (transform_orders c8cdf c8jan c8feb c8tx).1

/-- Counterexample to claim C8: two accepted customers share an email and each
has one accepted order.  The report says customers_with_orders is 1 (distinct
emails among orders) while the number of accepted customers referenced by at
least one accepted order is 2; it says customers_without_orders is 1 while
the number of accepted customers with zero orders is 0. -/
theorem claim_C8_counterexample :
    (validate_data_quality c8cdf c8odf).customers_with_orders = 1 ∧
    (c8cdf.rows.filter (fun r =>
      occursIn c8odf "customer_id"
        (colVal c8cdf.cols "customer_id" r))).length = 2 ∧
    (validate_data_quality c8cdf c8odf).customers_without_orders = 1 ∧
    (c8cdf.rows.filter (fun r =>
      !occursIn c8odf "customer_id"
        (colVal c8cdf.cols "customer_id" r))).length = 0 := by
  refine ⟨by decide, by decide, by decide, by decide⟩

/-- Claim C8 (amended): in the report of `validate_data_quality` over the
pipeline outputs, customers_with_orders equals the number of distinct
non-null customer_email values among accepted orders (which can differ from
the number of referenced customers when accepted customers share an email),
customers_without_orders equals the accepted customer count minus that
number, and the reported orphan-order count is the constant zero — which does
match the actual count of accepted orders whose customer_id is absent from
the accepted customer set, because that count is provably zero. -/
theorem claim_C8_amended (raw jan feb tx : Table) :
    (validate_data_quality (transform_customers raw).1
        (transform_orders (transform_customers raw).1 jan feb tx).1).customers_with_orders
      = nunique (transform_orders (transform_customers raw).1 jan feb tx).1
          "customer_email" ∧
    (validate_data_quality (transform_customers raw).1
        (transform_orders (transform_customers raw).1 jan feb tx).1).customers_without_orders
      = ((transform_customers raw).1.rows.length : Int)
          - (nunique (transform_orders (transform_customers raw).1 jan feb tx).1
              "customer_email" : Int) ∧
    (validate_data_quality (transform_customers raw).1
        (transform_orders (transform_customers raw).1 jan feb tx).1).orphan_orders
      = 0 ∧
    ((transform_orders (transform_customers raw).1 jan feb tx).1.rows.filter
      (fun s => !occursIn (transform_customers raw).1 "customer_id"
        (colVal (transform_orders (transform_customers raw).1 jan feb tx).1.cols
          "customer_id" s))).length = 0 := by
  refine ⟨rfl, rfl, rfl, ?_⟩
  have h := (transform_orders_props (transform_customers raw).1 jan feb tx).1
  have hnil : ((transform_orders (transform_customers raw).1 jan feb tx).1.rows.filter
      (fun s => !occursIn (transform_customers raw).1 "customer_id"
        (colVal (transform_orders (transform_customers raw).1 jan feb tx).1.cols
          "customer_id" s))) = [] := by
    rw [List.filter_eq_nil_iff]
    intro s hs
    have h3 := (h s hs).2.2
    simp [h3]
  rw [hnil]
  rfl

end Silver
